import Mathlib

/-!
Verification of the IoT data simulator's measurement pipeline, playback
driver, device resolver, channel negotiator and serial transport.

The definitions below are a shallow embedding of the TypeScript sources:

* the measurement pipeline and playback driver from the index module
  (functions flatMeasurementData, groupMeasurementsByTimestamp,
  ignoreMeasurementType, prepareAndSendMessages, waitDelta);
* the RFCOMM Bluetooth class (resolveAddress, connectRFCOMM, sendMessage);
* the legacy Bluetooth class in src/bluetooth.ts (its sendMessage).

JavaScript objects become structures, JS `Map` becomes an insertion-ordered
association list, fallible operations become Except, and the asynchronous
driver becomes a pure function that returns the list of observable events
(messages sent and timed waits) in the order they are performed.
-/

namespace IotSim

/-- The measurement type codes.  Modelled from the spec: the
`MeasurementTypeEnum` declaration lives in `types.ts`, which is not part of
the provided sources; the spec states that the enumeration consists of the
forwarded subset HeartRate, BreathFrequency, Respiration,
AccelerationX/Y/Z, Position together with the two ignored codes R2R and
ECG. -/
inductive MeasurementType where
  | HeartRate
  | BreathFrequency
  | Respiration
  | AccelerationX
  | AccelerationY
  | AccelerationZ
  | Position
  | R2R
  | ECG
deriving DecidableEq, Repr

/-- A JavaScript measurement value: the spec's data model allows a numeric
value or a numeric array.  (Floating point content is irrelevant to every
claim, so numbers are carried as integers.) -/
inductive JSValue where
  | num (n : Int)
  | arr (xs : List Int)
deriving DecidableEq, Repr

/-- JavaScript truthiness of a measurement value: a number is truthy iff it
is nonzero, an array is always truthy. -/
def JSValue.truthy : JSValue → Bool
  | .num n => n != 0
  | .arr _ => true

/-- A measurement record {date, value, userId, measureType}; also the shape
of every outgoing JSON message. -/
structure Measurement where
  date : Int
  value : JSValue
  userId : Int
  measureType : MeasurementType
deriving DecidableEq, Repr

/-- One user's entry of the input JSON array; only its data field is ever
read by the pipeline. -/
structure UserData where
  data : List Measurement
deriving Repr

/-- flatMeasurementData: data.map((d) => d.data).flat() -/
def flatMeasurementData (uds : List UserData) : List Measurement :=
  (uds.map (fun d => d.data)).flatten

/-- ignoreMeasurementType: measureType === 'R2R' || measureType === 'ECG' -/
def ignoreMeasurementType : MeasurementType → Bool
  | .R2R => true
  | .ECG => true
  | _ => false

/-- The field names of a DataGroup that measurements are stored under. -/
inductive GroupField where
  | heartRate
  | breathFrequency
  | respiration
  | accelerationX
  | accelerationY
  | accelerationZ
  | position
deriving DecidableEq, Repr

/-- Modelled from the spec: `MeasurementTypeEnum` (declared in the missing
`types.ts`) maps each forwarded measurement type code to its DataGroup
field name; the two ignored codes are filtered out before this map is ever
consulted, so their images are unobservable and are modelled as none. -/
def measurementTypeEnum : MeasurementType → Option GroupField
  | .HeartRate => some .heartRate
  | .BreathFrequency => some .breathFrequency
  | .Respiration => some .respiration
  | .AccelerationX => some .accelerationX
  | .AccelerationY => some .accelerationY
  | .AccelerationZ => some .accelerationZ
  | .Position => some .position
  | .R2R => none
  | .ECG => none

/-- The measurement type code written into the outgoing message built from
a given group field. -/
def GroupField.toMeasurementType : GroupField → MeasurementType
  | .heartRate => .HeartRate
  | .breathFrequency => .BreathFrequency
  | .respiration => .Respiration
  | .accelerationX => .AccelerationX
  | .accelerationY => .AccelerationY
  | .accelerationZ => .AccelerationZ
  | .position => .Position

/-- A DataGroup: the per-timestamp aggregation {timestamp, userId, and
zero-or-more recognized fields}.  An absent field is the JS `undefined`. -/
structure DataGroup where
  timestamp : Int
  userId : Int
  heartRate : Option JSValue := none
  breathFrequency : Option JSValue := none
  respiration : Option JSValue := none
  accelerationX : Option JSValue := none
  accelerationY : Option JSValue := none
  accelerationZ : Option JSValue := none
  position : Option JSValue := none
deriving DecidableEq, Repr

def DataGroup.getField (d : DataGroup) : GroupField → Option JSValue
  | .heartRate => d.heartRate
  | .breathFrequency => d.breathFrequency
  | .respiration => d.respiration
  | .accelerationX => d.accelerationX
  | .accelerationY => d.accelerationY
  | .accelerationZ => d.accelerationZ
  | .position => d.position

def DataGroup.setField (d : DataGroup) : GroupField → JSValue → DataGroup
  | .heartRate, v => { d with heartRate := some v }
  | .breathFrequency, v => { d with breathFrequency := some v }
  | .respiration, v => { d with respiration := some v }
  | .accelerationX, v => { d with accelerationX := some v }
  | .accelerationY, v => { d with accelerationY := some v }
  | .accelerationZ, v => { d with accelerationZ := some v }
  | .position, v => { d with position := some v }

/-- The JS `Map<number, DataGroup>`: an association list in key insertion
order. -/
abbrev GroupMap := List (Int × DataGroup)

/-- Map.has -/
def mapHas (g : GroupMap) (t : Int) : Bool :=
  match g with
  | [] => false
  | p :: rest => p.1 == t || mapHas rest t

/-- Map.get -/
def mapGet (g : GroupMap) (t : Int) : Option DataGroup :=
  match g with
  | [] => none
  | p :: rest => if p.1 == t then some p.2 else mapGet rest t

/-- In-place mutation of the entry stored under a key
(`group.get(timestamp)[measureKey] = value`). -/
def mapUpdate (g : GroupMap) (t : Int) (f : DataGroup → DataGroup) : GroupMap :=
  match g with
  | [] => []
  | p :: rest =>
      if p.1 == t then (p.1, f p.2) :: mapUpdate rest t f
      else p :: mapUpdate rest t f

/-- One loop iteration of groupMeasurementsByTimestamp: skip ignored types;
find-or-create the group for the measurement's date (a created group
records the measurement's userId); then store the value under the field
named by the enum, when the enum recognizes the type. -/
def groupStep (g : GroupMap) (m : Measurement) : GroupMap :=
  if ignoreMeasurementType m.measureType then g
  else
    let g1 :=
      if mapHas g m.date then g
      else g ++ [(m.date, { timestamp := m.date, userId := m.userId })]
    match measurementTypeEnum m.measureType with
    | some f => mapUpdate g1 m.date (fun d => d.setField f m.value)
    | none => g1

/-- groupMeasurementsByTimestamp: the single pass over the measurements. -/
def groupMeasurementsByTimestamp (ms : List Measurement) : GroupMap :=
  ms.foldl groupStep []

/-- An observable action of the playback driver, in order of occurrence:
a message written to the Bluetooth client, or a timed sleep
(setTimeout, in milliseconds). -/
inductive PlayEvent where
  | sent (m : Measurement)
  | waited (millis : Int)
deriving DecidableEq, Repr

/-- One `if (datum.field) { ... sendMessage ... }` block of the driver:
emits a message iff the field is present and JS-truthy, stamping the
message with the current wall-clock time `now` (Date.now()), the group's
userId and the field's output type code. -/
def emitField (now : Int) (d : DataGroup) (f : GroupField) : List PlayEvent :=
  match d.getField f with
  | some v =>
      if v.truthy then
        [.sent { date := now, value := v, userId := d.userId,
                 measureType := f.toMeasurementType }]
      else []
  | none => []

/-- The seven consecutive field blocks of the driver body, in source
order. -/
def groupMessages (now : Int) (d : DataGroup) : List PlayEvent :=
  emitField now d .heartRate ++ emitField now d .breathFrequency ++
  emitField now d .respiration ++ emitField now d .accelerationX ++
  emitField now d .accelerationY ++ emitField now d .accelerationZ ++
  emitField now d .position

/-- waitDelta: if i < timeDeltas.length, sleep timeDeltas[i] * 1000
milliseconds; otherwise do nothing. -/
def waitDelta (i : Nat) (timeDeltas : List Int) : List PlayEvent :=
  match timeDeltas[i]? with
  | some d => [.waited (d * 1000)]
  | none => []

/-- Numeric ascending sort, as performed by
Array.from(data.keys()).sort((a, b) => a - b).  (Insertion sort; the keys
are distinct, so any correct comparison sort yields this list.) -/
def insertSorted (x : Int) : List Int → List Int
  | [] => [x]
  | y :: rest => if x ≤ y then x :: y :: rest else y :: insertSorted x rest

def sortTimestamps (l : List Int) : List Int :=
  l.foldr insertSorted []

/-- The ascending key list the driver iterates over. -/
def sortedTimestamps (data : GroupMap) : List Int :=
  sortTimestamps (data.map (fun p => p.1))

/-- timeDeltas: sortedTimestamps.slice(1).map((key, i) =>
key - sortedTimestamps[i]). -/
def computeTimeDeltas (ts : List Int) : List Int :=
  (ts.drop 1).zipWith (fun a b => a - b) ts

/-- The driver's for-loop.  `i` is the loop counter, `l` the still
unprocessed suffix of the sorted timestamp list.  At the top of each
iteration the abort signal is sampled (`aborted i` is the value observed at
the i-th check); a set signal breaks out of the loop.  A missing map entry
is `continue` (skipping the wait); otherwise the seven field blocks run and
then waitDelta. -/
def driverLoop (data : GroupMap) (deltas : List Int) (aborted : Nat → Bool)
    (now : Int) : Nat → List Int → List PlayEvent
  | _, [] => []
  | i, t :: rest =>
    if aborted i then []
    else
      match mapGet data t with
      | none => driverLoop data deltas aborted now (i + 1) rest
      | some datum =>
          groupMessages now datum ++ waitDelta i deltas ++
            driverLoop data deltas aborted now (i + 1) rest

/-- prepareAndSendMessages: sort the keys, compute the deltas up front, and
run the loop from index 0. -/
def prepareAndSendMessages (now : Int) (data : GroupMap)
    (aborted : Nat → Bool) : List PlayEvent :=
  driverLoop data (computeTimeDeltas (sortedTimestamps data)) aborted now 0
    (sortedTimestamps data)

/-- The messages the driver emits for the group stored under timestamp t
(none when the map unexpectedly has no entry, the loop's `continue`). -/
def groupEventsAt (now : Int) (data : GroupMap) (t : Int) : List PlayEvent :=
  match mapGet data t with
  | some d => groupMessages now d
  | none => []

/-- Spec-side trace of an uncancelled run: each group's messages, a wait of
exactly the delta to the next group (seconds, converted to milliseconds)
between consecutive groups, and no wait after the final group. -/
def pacedTrace (now : Int) (data : GroupMap) : List Int → List PlayEvent
  | [] => []
  | [t] => groupEventsAt now data t
  | t :: t' :: rest =>
      groupEventsAt now data t ++
        PlayEvent.waited ((t' - t) * 1000) :: pacedTrace now data (t' :: rest)

/-- The events of the driver's i-th iteration onward, one block per
iteration: the group's messages followed by its waitDelta (or nothing for
a missing map entry, whose iteration is a bare `continue`). -/
def driverBlocks (now : Int) (data : GroupMap) (deltas : List Int) :
    Nat → List Int → List (List PlayEvent)
  | _, [] => []
  | i, t :: rest =>
      (match mapGet data t with
       | some d => groupMessages now d ++ waitDelta i deltas
       | none => []) :: driverBlocks now data deltas (i + 1) rest

/-- The fixed order in which the driver examines the recognized group
fields. -/
def groupFieldOrder : List GroupField :=
  [.heartRate, .breathFrequency, .respiration, .accelerationX,
   .accelerationY, .accelerationZ, .position]

/-- Spec-side: the measurements reconstructed from one group by reading its
populated fields back as measurement records. -/
def flattenGroupFields (d : DataGroup) : List Measurement :=
  groupFieldOrder.filterMap fun f =>
    (d.getField f).map fun v =>
      { date := d.timestamp, value := v, userId := d.userId,
        measureType := f.toMeasurementType }

/-- Spec-side: flattening the fields of all groups of a grouping map. -/
def flattenGroups (data : GroupMap) : List Measurement :=
  data.flatMap fun p => flattenGroupFields p.2

/-- Is `m` retained (not of an ignored measurement type)? -/
def keepMeasurement (m : Measurement) : Bool :=
  !ignoreMeasurementType m.measureType

/-- Spec-side: keep, of each (timestamp, measureType) key, only the last
measurement in input order (an element survives iff no later element
shares its key). -/
def dedupKeysRight : List Measurement → List Measurement
  | [] => []
  | m :: rest =>
      if rest.any (fun m2 => m2.date == m.date && m2.measureType == m.measureType)
      then dedupKeysRight rest
      else m :: dedupKeysRight rest

/-- The first retained measurement of a given timestamp: the one whose
userId labels the group. -/
def firstRetainedAt (ms : List Measurement) (t : Int) : Option Measurement :=
  ms.find? fun m => keepMeasurement m && m.date == t

/-- The last measurement of a given timestamp and field in input order
(the write that wins). -/
def lastMeas (ms : List Measurement) (t : Int) (f : GroupField) :
    Option Measurement :=
  (ms.filter fun m => m.date == t && m.measureType == f.toMeasurementType).getLast?

/-- Relabel a measurement's userId with the userId of the first retained
measurement at its timestamp (how grouping labels the reconstruction). -/
def relabelUserId (ms : List Measurement) (m : Measurement) : Measurement :=
  { m with userId := ((firstRetainedAt ms m.date).map (fun m0 => m0.userId)).getD m.userId }

/-- Spec-side: the populated recognized fields of a group, in the fixed
field order. -/
def populatedFields (d : DataGroup) : List GroupField :=
  groupFieldOrder.filter fun f => (d.getField f).isSome

/-- Is the stored value of a field present and JS-truthy (the condition
under which the driver emits a message for it)? -/
def truthyField (d : DataGroup) (f : GroupField) : Bool :=
  match d.getField f with
  | some v => v.truthy
  | none => false

/-- The error taxonomy of the Bluetooth class, named after the spec's error
names.  deviceNotFound carries the hint that failed to resolve. -/
inductive BtError where
  | deviceNotFound (hint : String)
  | channelNegotiationFailed
  | notConnected
deriving DecidableEq, Repr

/-- A character of the regex class [0-9A-F:] under the /i flag. -/
def hexColonChar (c : Char) : Bool :=
  c.isDigit || ('A' ≤ c && c ≤ 'F') || ('a' ≤ c && c ≤ 'f') || c == ':'

/-- The anchored address test /^[0-9A-F:]\x7b17\x7d$/i. -/
def isAddressPattern (s : String) : Bool :=
  s.data.length == 17 && s.data.all hexColonChar

/-- Case folding used by String.prototype.toLowerCase in the resolver. -/
def toLowerList (s : List Char) : List Char :=
  s.map Char.toLower

/-- String.prototype.includes: pat occurs as a contiguous substring. -/
def containsSub (pat : List Char) : List Char → Bool
  | [] => pat.isEmpty
  | c :: rest => pat.isPrefixOf (c :: rest) || containsSub pat rest

/-- One anchored attempt of the line regex
/Device ([A-Fa-f0-9:]\x7b17\x7d) (.+)/ at the current position: the literal
"Device ", then exactly 17 class characters, then a space, then at least
one further character (the captured name, running to the end of the
line). -/
def tryDeviceAt (cs : List Char) : Option (List Char × List Char) :=
  if "Device ".data.isPrefixOf cs then
    let rest1 := cs.drop 7
    let addr := rest1.take 17
    let rest2 := rest1.drop 17
    if addr.length == 17 && addr.all hexColonChar then
      match rest2 with
      | ' ' :: c :: name => some (addr, c :: name)
      | _ => none
    else none
  else none

/-- Unanchored (leftmost) search of the device-line regex, as performed by
String.prototype.match. -/
def matchDeviceLine : List Char → Option (List Char × List Char)
  | [] => none
  | c :: rest =>
    match tryDeviceAt (c :: rest) with
    | some r => some r
    | none => matchDeviceLine rest

/-- The per-line body of the resolver's loop: parse the line, and if its
captured name contains the fragment case-insensitively, yield the captured
address. -/
def lineMatches (frag : String) (line : String) : Option String :=
  match matchDeviceLine line.data with
  | some (addr, name) =>
      if containsSub (toLowerList frag.data) (toLowerList name) then
        some (String.mk addr)
      else none
  | none => none

/-- resolveAddress.  The paired-device listing is an external subprocess;
its standard output is passed in as `stdout` and split on newlines exactly
as the source does. -/
def resolveAddress (nameOrAddr : String) (stdout : String) :
    Except BtError String :=
  if isAddressPattern nameOrAddr then .ok nameOrAddr
  else
    match (stdout.splitOn "\n").findSome? (lineMatches nameOrAddr) with
    | some addr => .ok addr
    | none => .error (.deviceNotFound nameOrAddr)

/-- The devices parsed from the listing, in line order: spec-side
description ("each entry parsed from a fixed textual line format") used to
state claim C7 against resolveAddress. -/
def pairedDeviceList (stdout : String) : List (List Char × List Char) :=
  (stdout.splitOn "\n").filterMap (fun line => matchDeviceLine line.data)

/-- Does the parsed device's name contain the fragment
case-insensitively? -/
def deviceNameMatches (frag : String) (dev : List Char × List Char) : Bool :=
  containsSub (toLowerList frag.data) (toLowerList dev.2)

/-- The fixed candidate channel list of connectRFCOMM. -/
def knownChannels : List Nat := [12, 19, 26, 3, 2]

/-- The local character device path opened after a successful bind. -/
def rfcommDevPath : String := "/dev/rfcomm0"

/-- Search, after a matched "Connected " prefix, for the literal
" on channel" with no intervening newline (the `.*` of the first success
regex does not cross lines). -/
def connectedSince : List Char → Bool
  | [] => false
  | c :: rest =>
      " on channel".data.isPrefixOf (c :: rest) ||
        (c != '\n' && connectedSince rest)

/-- The test /Connected .* on channel/ on a stdout chunk. -/
def hasConnectedPattern : List Char → Bool
  | [] => false
  | c :: rest =>
      ("Connected ".data.isPrefixOf (c :: rest) &&
        connectedSince ((c :: rest).drop 10)) ||
      hasConnectedPattern rest

/-- The test /Connection successful/i on a stdout chunk. -/
def hasConnSuccessful (cs : List Char) : Bool :=
  containsSub "connection successful".data (toLowerList cs)

/-- The success condition applied to one stdout data chunk of the connect
subprocess. -/
def isSuccessOutput (s : String) : Bool :=
  hasConnectedPattern s.data || hasConnSuccessful s.data

/-- Did the attempt on a given channel succeed?  `outputs ch` lists the
stdout chunks the connect subprocess for channel ch delivered before the
4-second timeout or its exit (the real-time race itself is abstracted into
which chunks were observed in time). -/
def attemptOk (outputs : Nat → List String) (ch : Nat) : Bool :=
  (outputs ch).any isSuccessOutput

/-- The externally visible actions of connectRFCOMM, in order: releasing
the local rfcomm0 slot, spawning a connect subprocess for a channel, and
opening the local character device. -/
inductive NegAction where
  | release0
  | spawnConnect (ch : Nat)
  | openDev (path : String)
deriving DecidableEq, Repr

/-- The connection state retained by a successful negotiation: the
subprocess handle (identified by its channel) and the opened device
path. -/
structure ConnState where
  rfcommProc : Option Nat
  rfcommFd : Option String
deriving DecidableEq, Repr

/-- The candidate loop of connectRFCOMM: for each channel, release the
slot, spawn the connect subprocess, and on the first success open the
device and stop; on exhaustion fail with ChannelNegotiationFailed. -/
def connectRFCOMMGo (outputs : Nat → List String) :
    List Nat → List NegAction × Except BtError ConnState
  | [] => ([], .error .channelNegotiationFailed)
  | ch :: rest =>
    let attempt := [NegAction.release0, NegAction.spawnConnect ch]
    if attemptOk outputs ch then
      (attempt ++ [NegAction.openDev rfcommDevPath],
        .ok { rfcommProc := some ch, rfcommFd := some rfcommDevPath })
    else
      let r := connectRFCOMMGo outputs rest
      (attempt ++ r.1, r.2)

def connectRFCOMM (outputs : Nat → List String) :
    List NegAction × Except BtError ConnState :=
  connectRFCOMMGo outputs knownChannels

/-- The single write performed by the RFCOMM transport's sendMessage:
fs.write of `data` to file descriptor `fd`; the promise resolves only when
the write callback confirms it. -/
structure RfcommWrite where
  fd : Nat
  data : String
deriving DecidableEq, Repr

/-- String.prototype.endsWith, over the character sequences. -/
def strEndsWith (s suffix : String) : Bool :=
  suffix.data.isSuffixOf s.data

/-- sendMessage of the RFCOMM Bluetooth class: fail with NotConnected when
no descriptor is open, otherwise append a newline terminator if absent and
perform exactly one write. -/
def sendMessage (rfcommFd : Option Nat) (message : String) :
    Except BtError RfcommWrite :=
  match rfcommFd with
  | none => .error .notConnected
  | some fd =>
      let line := if strEndsWith message "\n" then message
                  else message ++ "\n"
      .ok { fd := fd, data := line }

/-- What the legacy Bluetooth class's sendMessage (src/bluetooth.ts of the
older layout) observably does. -/
inductive LegacySendOutcome where
  | skippedNotConnected
  | sppLogged (message : String)
deriving DecidableEq, Repr

/-- sendMessage of the legacy Bluetooth class: when not connected it warns
and resolves normally (no error is raised); otherwise it delegates to
sendViaSPP, which only logs the message (all errors are caught and
swallowed).  It never rejects. -/
def sendMessageLegacy (isConnected : Bool) (message : String) :
    Except BtError LegacySendOutcome :=
  if !isConnected then .ok .skippedNotConnected
  else .ok (.sppLogged message)

/-! ## Sorting lemmas -/

theorem insertSorted_perm (x : Int) (l : List Int) :
    (insertSorted x l).Perm (x :: l) := by
  induction l with
  | nil => simp [insertSorted]
  | cons y rest ih =>
    simp only [insertSorted]
    split
    · exact .refl _
    · exact .trans (.cons y ih) (.swap x y rest)

theorem mem_insertSorted {x z : Int} {l : List Int} :
    z ∈ insertSorted x l ↔ z = x ∨ z ∈ l := by
  rw [(insertSorted_perm x l).mem_iff]
  simp

theorem insertSorted_sorted {x : Int} {l : List Int}
    (h : l.Pairwise (· ≤ ·)) : (insertSorted x l).Pairwise (· ≤ ·) := by
  induction l with
  | nil => simp [insertSorted]
  | cons y rest ih =>
    rw [List.pairwise_cons] at h
    simp only [insertSorted]
    split
    · rename_i hxy
      refine List.pairwise_cons.mpr ⟨?_, List.pairwise_cons.mpr h⟩
      intro a ha
      rcases List.mem_cons.mp ha with rfl | ha
      · exact hxy
      · exact le_trans hxy (h.1 a ha)
    · rename_i hxy
      refine List.pairwise_cons.mpr ⟨?_, ih h.2⟩
      intro a ha
      rcases mem_insertSorted.mp ha with ha | ha
      · exact ha ▸ le_of_not_le hxy
      · exact h.1 a ha

theorem sortTimestamps_perm (l : List Int) :
    (sortTimestamps l).Perm l := by
  induction l with
  | nil => exact .refl _
  | cons x rest ih =>
    exact .trans (insertSorted_perm x (sortTimestamps rest)) (.cons x ih)

theorem sortTimestamps_sorted (l : List Int) :
    (sortTimestamps l).Pairwise (· ≤ ·) := by
  induction l with
  | nil => simp [sortTimestamps]
  | cons x rest ih => exact insertSorted_sorted ih

theorem sortTimestamps_sorted_lt {l : List Int} (h : l.Nodup) :
    (sortTimestamps l).Pairwise (· < ·) := by
  have hs := sortTimestamps_sorted l
  have hn : (sortTimestamps l).Nodup := (sortTimestamps_perm l).nodup_iff.mpr h
  exact (hs.and hn).imp fun hab => lt_of_le_of_ne hab.1 hab.2

/-! ## Grouping lemmas -/

theorem foldl_groupStep_filter (ms : List Measurement) (g : GroupMap) :
    ms.foldl groupStep g = (ms.filter keepMeasurement).foldl groupStep g := by
  induction ms generalizing g with
  | nil => rfl
  | cons m rest ih =>
    by_cases h : keepMeasurement m = true
    · rw [List.foldl_cons, List.filter_cons, if_pos h, List.foldl_cons]
      exact ih (groupStep g m)
    · have hig : ignoreMeasurementType m.measureType = true := by
        simpa [keepMeasurement] using h
      have hstep : groupStep g m = g := by simp [groupStep, hig]
      rw [List.foldl_cons, List.filter_cons, if_neg h, hstep]
      exact ih g

theorem measureType_flattenGroups {data : GroupMap} {m : Measurement}
    (h : m ∈ flattenGroups data) :
    ignoreMeasurementType m.measureType = false := by
  rw [flattenGroups, List.mem_flatMap] at h
  obtain ⟨p, _, hp⟩ := h
  rw [flattenGroupFields, List.mem_filterMap] at hp
  obtain ⟨f, _, hf⟩ := hp
  rcases h2 : p.2.getField f with _ | v
  · rw [h2] at hf; simp at hf
  · rw [h2] at hf
    injection hf with hf
    cases hf
    cases f <;> rfl

/-- C2: a measurement of an ignored (hence unrecognized) type is dropped
before grouping: filtering them out of the input leaves the grouping map
unchanged, an input of only ignored measurements produces no groups, and no
flattened group field ever carries an ignored type. -/
theorem ignored_measurements_never_grouped (ms : List Measurement) :
    groupMeasurementsByTimestamp ms =
      groupMeasurementsByTimestamp (ms.filter keepMeasurement) ∧
    groupMeasurementsByTimestamp
      (ms.filter fun m => ignoreMeasurementType m.measureType) = [] ∧
    ∀ m ∈ flattenGroups (groupMeasurementsByTimestamp ms),
      ignoreMeasurementType m.measureType = false := by
  refine ⟨foldl_groupStep_filter ms [], ?_, fun m hm => measureType_flattenGroups hm⟩
  rw [groupMeasurementsByTimestamp, foldl_groupStep_filter]
  have hnil : (ms.filter fun m => ignoreMeasurementType m.measureType).filter
      keepMeasurement = [] := by
    rw [List.filter_eq_nil_iff]
    intro m hm
    have hig := (List.mem_filter.mp hm).2
    simp [keepMeasurement, hig]
  rw [hnil]
  rfl

/-! ## Association-map lemmas -/

theorem mapHas_iff {g : GroupMap} {t : Int} :
    mapHas g t = true ↔ t ∈ g.map (fun p => p.1) := by
  induction g with
  | nil => simp [mapHas]
  | cons p rest ih =>
    rw [List.map_cons, List.mem_cons, mapHas, Bool.or_eq_true, beq_iff_eq, ih]
    constructor
    · rintro (h | h)
      · exact Or.inl h.symm
      · exact Or.inr h
    · rintro (h | h)
      · exact Or.inl h.symm
      · exact Or.inr h

theorem mapGet_eq_none_of_not_has {g : GroupMap} {t : Int}
    (h : mapHas g t = false) : mapGet g t = none := by
  induction g with
  | nil => rfl
  | cons p rest ih =>
    rw [mapHas] at h
    rcases Bool.or_eq_false_iff.mp h with ⟨h1, h2⟩
    rw [mapGet, if_neg (by simp [h1]), ih h2]

theorem mapGet_append (g1 g2 : GroupMap) (t : Int) :
    mapGet (g1 ++ g2) t = (mapGet g1 t).or (mapGet g2 t) := by
  induction g1 with
  | nil => simp [mapGet, Option.none_or]
  | cons p rest ih =>
    by_cases h : p.1 = t
    · rw [List.cons_append, mapGet, mapGet, if_pos (by simp [h]),
        if_pos (by simp [h])]
      rfl
    · rw [List.cons_append, mapGet, mapGet, if_neg (by simp [h]),
        if_neg (by simp [h]), ih]

theorem mapUpdate_keys (g : GroupMap) (t : Int) (f : DataGroup → DataGroup) :
    (mapUpdate g t f).map (fun p => p.1) = g.map (fun p => p.1) := by
  induction g with
  | nil => rfl
  | cons p rest ih =>
    by_cases h : p.1 = t
    · rw [mapUpdate, if_pos (by simp [h]), List.map_cons, List.map_cons, ih]
    · rw [mapUpdate, if_neg (by simp [h]), List.map_cons, List.map_cons, ih]

theorem mapGet_mapUpdate_self (g : GroupMap) (t : Int)
    (f : DataGroup → DataGroup) :
    mapGet (mapUpdate g t f) t = (mapGet g t).map f := by
  induction g with
  | nil => rfl
  | cons p rest ih =>
    by_cases h : p.1 = t
    · rw [mapUpdate, if_pos (by simp [h]), mapGet, if_pos (by simp [h]),
        mapGet, if_pos (by simp [h]), Option.map_some']
    · rw [mapUpdate, if_neg (by simp [h]), mapGet, if_neg (by simp [h]),
        mapGet, if_neg (by simp [h]), ih]

theorem mapGet_mapUpdate_ne (g : GroupMap) {t t' : Int}
    (f : DataGroup → DataGroup) (h : t' ≠ t) :
    mapGet (mapUpdate g t f) t' = mapGet g t' := by
  induction g with
  | nil => rfl
  | cons p rest ih =>
    by_cases hp : p.1 = t
    · have hne : ¬((p.1 : Int) == t') = true := by
        simp [hp]
        exact fun e => h e.symm
      rw [mapUpdate, if_pos (by simp [hp]), mapGet, if_neg hne, mapGet,
        if_neg hne, ih]
    · by_cases he : p.1 = t'
      · rw [mapUpdate, if_neg (by simp [hp]), mapGet, if_pos (by simp [he]),
          mapGet, if_pos (by simp [he])]
      · rw [mapUpdate, if_neg (by simp [hp]), mapGet, if_neg (by simp [he]),
          mapGet, if_neg (by simp [he]), ih]

/-! ## Enumeration and field lemmas -/

theorem toMeasurementType_not_ignored (f : GroupField) :
    ignoreMeasurementType f.toMeasurementType = false := by
  cases f <;> rfl

theorem enum_eq_some_iff {mt : MeasurementType} {f : GroupField} :
    measurementTypeEnum mt = some f ↔ mt = f.toMeasurementType := by
  cases mt <;> cases f <;>
    simp [measurementTypeEnum, GroupField.toMeasurementType]

theorem enum_isSome_of_keep {mt : MeasurementType}
    (h : ignoreMeasurementType mt = false) :
    ∃ f, measurementTypeEnum mt = some f := by
  cases mt <;> first
    | exact ⟨_, rfl⟩
    | cases h

theorem getField_setField_self (d : DataGroup) (f : GroupField)
    (v : JSValue) : (d.setField f v).getField f = some v := by
  cases f <;> rfl

theorem getField_setField_ne (d : DataGroup) {f f' : GroupField}
    (v : JSValue) (h : f ≠ f') :
    (d.setField f v).getField f' = d.getField f' := by
  cases f <;> cases f' <;>
    first
      | rfl
      | exact absurd rfl h

theorem setField_timestamp (d : DataGroup) (f : GroupField) (v : JSValue) :
    (d.setField f v).timestamp = d.timestamp := by
  cases f <;> rfl

theorem setField_userId (d : DataGroup) (f : GroupField) (v : JSValue) :
    (d.setField f v).userId = d.userId := by
  cases f <;> rfl

theorem freshGroup_getField (t uid : Int) (f : GroupField) :
    (DataGroup.getField { timestamp := t, userId := uid } f) = none := by
  cases f <;> rfl

/-! ## Option and getLast? helpers -/

theorem getLast?_cons_or {α : Type} (x : α) (l : List α) :
    (x :: l).getLast? = l.getLast?.or (some x) := by
  cases l with
  | nil => rfl
  | cons y rest =>
    have hs : ((y :: rest).getLast?).isSome = true := by
      induction rest generalizing y with
      | nil => rfl
      | cons z rest2 ih => rw [List.getLast?_cons_cons]; exact ih z
    rw [List.getLast?_cons_cons, Option.or_of_isSome hs]

/-! ## One step of grouping -/

/-- The value the processing of measurement m writes to the (t, f) slot:
its own value when it is a retained measurement of timestamp t whose type
stores into field f, nothing otherwise. -/
def valWrite (m : Measurement) (t : Int) (f : GroupField) : Option JSValue :=
  if m.date == t && m.measureType == f.toMeasurementType then some m.value
  else none

theorem mapGet_eq_none_iff {g : GroupMap} {t : Int} :
    mapGet g t = none ↔ mapHas g t = false := by
  induction g with
  | nil => simp [mapGet, mapHas]
  | cons p rest ih =>
    by_cases h : p.1 = t
    · rw [mapGet, if_pos (by simp [h]), mapHas]
      simp [h]
    · rw [mapGet, if_neg (by simp [h]), mapHas]
      simp [h, ih]

theorem mapGet_isSome_of_has {g : GroupMap} {t : Int}
    (h : mapHas g t = true) : ∃ d, mapGet g t = some d := by
  rcases he : mapGet g t with _ | d
  · rw [mapGet_eq_none_iff, h] at he; cases he
  · exact ⟨d, rfl⟩

theorem mapHas_append (g1 g2 : GroupMap) (t : Int) :
    mapHas (g1 ++ g2) t = (mapHas g1 t || mapHas g2 t) := by
  induction g1 with
  | nil => simp [mapHas]
  | cons p rest ih => rw [List.cons_append, mapHas, mapHas, ih, Bool.or_assoc]

theorem mapHas_mapUpdate (g : GroupMap) (t t' : Int)
    (f : DataGroup → DataGroup) :
    mapHas (mapUpdate g t f) t' = mapHas g t' := by
  induction g with
  | nil => rfl
  | cons p rest ih =>
    by_cases h : p.1 = t
    · rw [mapUpdate, if_pos (by simp [h]), mapHas, mapHas, ih]
    · rw [mapUpdate, if_neg (by simp [h]), mapHas, mapHas, ih]

theorem groupStep_has (g : GroupMap) (m : Measurement) (t : Int) :
    mapHas (groupStep g m) t =
      (mapHas g t || (keepMeasurement m && m.date == t)) := by
  by_cases hig : ignoreMeasurementType m.measureType = true
  · have hkeep : keepMeasurement m = false := by simp [keepMeasurement, hig]
    rw [groupStep, if_pos hig, hkeep, Bool.false_and, Bool.or_false]
  · have h : ignoreMeasurementType m.measureType = false := by simpa using hig
    have hkeep : keepMeasurement m = true := by simp [keepMeasurement, h]
    obtain ⟨f, hf⟩ := enum_isSome_of_keep h
    rw [groupStep, if_neg hig, hkeep, Bool.true_and]
    simp only [hf]
    rw [mapHas_mapUpdate]
    by_cases hh : mapHas g m.date = true
    · rw [if_pos hh]
      by_cases ht : m.date = t
      · have hgt : mapHas g t = true := ht ▸ hh
        simp [hgt]
      · have hb : (m.date == t) = false := by simp [ht]
        rw [hb, Bool.or_false]
    · rw [if_neg hh, mapHas_append]
      have hsingle : mapHas [(m.date,
          { timestamp := m.date, userId := m.userId })] t = (m.date == t) := by
        rw [mapHas, mapHas, Bool.or_false]
      rw [hsingle]

theorem mapGet_single (k : Int) (d : DataGroup) (t : Int) :
    mapGet [(k, d)] t = if k == t then some d else none := by
  by_cases h : k = t
  · rw [mapGet, if_pos (by simp [h]), if_pos (by simp [h])]
  · rw [mapGet, if_neg (by simp [h]), if_neg (by simp [h])]
    rfl

theorem foldl_groupStep_has (ms : List Measurement) (g : GroupMap) (t : Int) :
    mapHas (ms.foldl groupStep g) t =
      (mapHas g t || ms.any fun m => keepMeasurement m && m.date == t) := by
  induction ms generalizing g with
  | nil => simp
  | cons m rest ih =>
    rw [List.foldl_cons, ih, groupStep_has, List.any_cons, Bool.or_assoc]

theorem groupStep_userId (g : GroupMap) (m : Measurement) (t : Int) :
    (mapGet (groupStep g m) t).map (fun d => d.userId) =
      ((mapGet g t).map (fun d => d.userId)).or
        (if keepMeasurement m && m.date == t then some m.userId else none) := by
  by_cases hig : ignoreMeasurementType m.measureType = true
  · have hkeep : keepMeasurement m = false := by simp [keepMeasurement, hig]
    rw [groupStep, if_pos hig, hkeep, Bool.false_and, if_neg (by simp),
      Option.or_none]
  · have h : ignoreMeasurementType m.measureType = false := by simpa using hig
    have hkeep : keepMeasurement m = true := by simp [keepMeasurement, h]
    obtain ⟨f, hf⟩ := enum_isSome_of_keep h
    rw [groupStep, if_neg hig, hkeep, Bool.true_and]
    simp only [hf]
    by_cases ht : m.date = t
    · subst ht
      have hbt : (m.date == m.date) = true := by simp
      by_cases hh : mapHas g m.date = true
      · rw [if_pos hh, mapGet_mapUpdate_self]
        obtain ⟨d, hd⟩ := mapGet_isSome_of_has hh
        rw [hd, Option.map_some', Option.map_some', Option.map_some',
          setField_userId]
        rfl
      · have hnone : mapGet g m.date = none :=
          mapGet_eq_none_iff.mpr (by simpa using hh)
        rw [if_neg hh, mapGet_mapUpdate_self, mapGet_append, hnone,
          Option.none_or, mapGet_single, if_pos hbt, Option.map_some',
          Option.map_some']
        simp [setField_userId, hnone, hbt]
    · have hb : (m.date == t) = false := by simp [ht]
      rw [hb, if_neg Bool.false_ne_true, Option.or_none,
        mapGet_mapUpdate_ne _ _ (fun e => ht e.symm)]
      by_cases hh : mapHas g m.date = true
      · rw [if_pos hh]
      · rw [if_neg hh, mapGet_append, mapGet_single, hb,
          if_neg Bool.false_ne_true, Option.or_none]

theorem firstRetainedAt_cons (m : Measurement) (rest : List Measurement)
    (t : Int) :
    firstRetainedAt (m :: rest) t =
      if (keepMeasurement m && m.date == t) = true then some m
      else firstRetainedAt rest t := by
  by_cases hc : (keepMeasurement m && m.date == t) = true
  · rw [firstRetainedAt,
      List.find?_cons_of_pos rest
        (show (fun m => keepMeasurement m && m.date == t) m = true from hc),
      if_pos hc]
  · rw [firstRetainedAt,
      List.find?_cons_of_neg rest
        (show ¬(fun m => keepMeasurement m && m.date == t) m = true from hc),
      if_neg hc, firstRetainedAt]

theorem foldl_groupStep_userId (ms : List Measurement) (g : GroupMap)
    (t : Int) :
    (mapGet (ms.foldl groupStep g) t).map (fun d => d.userId) =
      ((mapGet g t).map (fun d => d.userId)).or
        ((firstRetainedAt ms t).map (fun m => m.userId)) := by
  induction ms generalizing g with
  | nil => rw [firstRetainedAt]; simp
  | cons m rest ih =>
    rw [List.foldl_cons, ih, groupStep_userId, Option.or_assoc]
    congr 1
    rw [firstRetainedAt_cons]
    by_cases hc : (keepMeasurement m && m.date == t) = true
    · rw [if_pos hc, if_pos hc, Option.map_some']
      rfl
    · rw [if_neg hc, if_neg hc, Option.none_or]

theorem toMeasurementType_injective {f f' : GroupField}
    (h : f.toMeasurementType = f'.toMeasurementType) : f = f' := by
  have h1 : measurementTypeEnum f.toMeasurementType = some f :=
    enum_eq_some_iff.mpr rfl
  have h2 : measurementTypeEnum f'.toMeasurementType = some f' :=
    enum_eq_some_iff.mpr rfl
  rw [h, h2] at h1
  exact (Option.some_inj.mp h1).symm

theorem groupStep_field (g : GroupMap) (m : Measurement) (t : Int)
    (f : GroupField) :
    (mapGet (groupStep g m) t).bind (fun d => d.getField f) =
      (valWrite m t f).or ((mapGet g t).bind fun d => d.getField f) := by
  by_cases hig : ignoreMeasurementType m.measureType = true
  · have hv : valWrite m t f = none := by
      rw [valWrite]
      have : (m.measureType == GroupField.toMeasurementType f) = false := by
        by_cases e : m.measureType = f.toMeasurementType
        · rw [e, toMeasurementType_not_ignored] at hig; cases hig
        · simp [e]
      rw [this, Bool.and_false, if_neg (by simp)]
    rw [groupStep, if_pos hig, hv, Option.none_or]
  · have h : ignoreMeasurementType m.measureType = false := by simpa using hig
    obtain ⟨f0, hf0⟩ := enum_isSome_of_keep h
    have hf0t : m.measureType = f0.toMeasurementType := enum_eq_some_iff.mp hf0
    rw [groupStep, if_neg hig]
    simp only [hf0]
    by_cases ht : m.date = t
    · subst ht
      rw [mapGet_mapUpdate_self]
      by_cases hff : f0 = f
      · subst hff
        have hv : valWrite m m.date f0 = some m.value := by
          rw [valWrite, if_pos (by simp [hf0t])]
        rw [hv]
        by_cases hh : mapHas g m.date = true
        · rw [if_pos hh]
          obtain ⟨d, hd⟩ := mapGet_isSome_of_has hh
          rw [hd, Option.map_some', Option.some_bind, getField_setField_self]
          rfl
        · rw [if_neg hh, mapGet_append, mapGet_eq_none_iff.mpr (by simpa using hh),
            Option.none_or, mapGet_single, if_pos (by simp), Option.map_some',
            Option.some_bind, getField_setField_self]
          rfl
      · have hv : valWrite m m.date f = none := by
          rw [valWrite]
          have : (m.measureType == GroupField.toMeasurementType f) = false := by
            by_cases e : m.measureType = f.toMeasurementType
            · exact absurd (toMeasurementType_injective (hf0t ▸ e)) hff
            · simp [e]
          rw [this, Bool.and_false, if_neg (by simp)]
        rw [hv, Option.none_or]
        by_cases hh : mapHas g m.date = true
        · rw [if_pos hh]
          obtain ⟨d, hd⟩ := mapGet_isSome_of_has hh
          rw [hd, Option.map_some', Option.some_bind, Option.some_bind,
            getField_setField_ne _ _ hff]
        · have hbt : (m.date == m.date) = true := by simp
          rw [if_neg hh, mapGet_append, mapGet_eq_none_iff.mpr (by simpa using hh),
            Option.none_or, mapGet_single, if_pos hbt, Option.map_some',
            Option.some_bind, getField_setField_ne _ _ hff,
            freshGroup_getField]
          rfl
    · have hv : valWrite m t f = none := by
        rw [valWrite]
        have hb : (m.date == t) = false := by simp [ht]
        rw [hb, Bool.false_and, if_neg (by simp)]
      rw [hv, Option.none_or, mapGet_mapUpdate_ne _ _ (fun e => ht e.symm)]
      by_cases hh : mapHas g m.date = true
      · rw [if_pos hh]
      · rw [if_neg hh, mapGet_append, mapGet_single, if_neg (by simp [ht]),
          Option.or_none]

theorem lastMeas_cons (m : Measurement) (rest : List Measurement) (t : Int)
    (f : GroupField) :
    lastMeas (m :: rest) t f =
      (lastMeas rest t f).or
        (if (m.date == t && m.measureType == f.toMeasurementType) = true
         then some m else none) := by
  rw [lastMeas, lastMeas]
  simp only [List.filter_cons]
  by_cases hc : (m.date == t && m.measureType == f.toMeasurementType) = true
  · rw [if_pos hc, if_pos hc, getLast?_cons_or]
  · rw [if_neg hc, if_neg hc, Option.or_none]

theorem option_map_or {α β : Type} (fn : α → β) (a b : Option α) :
    (a.or b).map fn = (a.map fn).or (b.map fn) := by
  cases a <;> rfl

theorem valWrite_eq_map (m : Measurement) (t : Int) (f : GroupField) :
    valWrite m t f =
      (if (m.date == t && m.measureType == f.toMeasurementType) = true
       then some m else none).map (fun m => m.value) := by
  by_cases hc : (m.date == t && m.measureType == f.toMeasurementType) = true
  · rw [valWrite, if_pos hc, if_pos hc, Option.map_some']
  · rw [valWrite, if_neg hc, if_neg hc, Option.map_none']

theorem foldl_groupStep_field (ms : List Measurement) (g : GroupMap)
    (t : Int) (f : GroupField) :
    (mapGet (ms.foldl groupStep g) t).bind (fun d => d.getField f) =
      ((lastMeas ms t f).map (fun m => m.value)).or
        ((mapGet g t).bind fun d => d.getField f) := by
  induction ms generalizing g with
  | nil => rw [lastMeas]; simp
  | cons m rest ih =>
    rw [List.foldl_cons, ih, groupStep_field, lastMeas_cons, option_map_or,
      Option.or_assoc, valWrite_eq_map]

/-- The stored value of field f of the group at timestamp t is exactly the
value of the last measurement of that timestamp and type in input order. -/
theorem group_field_char (ms : List Measurement) (t : Int) (f : GroupField) :
    (mapGet (groupMeasurementsByTimestamp ms) t).bind (fun d => d.getField f) =
      (lastMeas ms t f).map (fun m => m.value) := by
  rw [groupMeasurementsByTimestamp, foldl_groupStep_field]
  simp [mapGet]

/-- The group at timestamp t carries the userId of the first retained
measurement of that timestamp. -/
theorem group_userId_char (ms : List Measurement) (t : Int) :
    (mapGet (groupMeasurementsByTimestamp ms) t).map (fun d => d.userId) =
      (firstRetainedAt ms t).map (fun m => m.userId) := by
  rw [groupMeasurementsByTimestamp, foldl_groupStep_userId]
  simp [mapGet]

/-- A group exists at timestamp t iff some retained measurement has that
timestamp. -/
theorem group_has_char (ms : List Measurement) (t : Int) :
    mapHas (groupMeasurementsByTimestamp ms) t =
      ms.any (fun m => keepMeasurement m && m.date == t) := by
  rw [groupMeasurementsByTimestamp, foldl_groupStep_has, mapHas,
    Bool.false_or]

theorem groupStep_keys_nodup {g : GroupMap} (m : Measurement)
    (h : (g.map (fun p => p.1)).Nodup) :
    ((groupStep g m).map (fun p => p.1)).Nodup := by
  by_cases hig : ignoreMeasurementType m.measureType = true
  · rw [groupStep, if_pos hig]; exact h
  · obtain ⟨f, hf⟩ := enum_isSome_of_keep (by simpa using hig)
    rw [groupStep, if_neg hig]
    simp only [hf]
    rw [mapUpdate_keys]
    by_cases hh : mapHas g m.date = true
    · rw [if_pos hh]; exact h
    · rw [if_neg hh, List.map_append]
      refine List.Nodup.append h (by simp) ?_
      intro a ha hb
      simp only [List.map_cons, List.map_nil, List.mem_singleton] at hb
      subst hb
      exact absurd (mapHas_iff.mpr ha) (by simpa using hh)

theorem foldl_groupStep_keys_nodup (ms : List Measurement) (g : GroupMap)
    (h : (g.map (fun p => p.1)).Nodup) :
    (((ms.foldl groupStep g)).map (fun p => p.1)).Nodup := by
  induction ms generalizing g with
  | nil => exact h
  | cons m rest ih =>
    rw [List.foldl_cons]
    exact ih _ (groupStep_keys_nodup m h)

theorem group_keys_nodup (ms : List Measurement) :
    ((groupMeasurementsByTimestamp ms).map (fun p => p.1)).Nodup :=
  foldl_groupStep_keys_nodup ms [] (by simp)

theorem mapUpdate_time_inv {g : GroupMap} {t : Int}
    {sf : DataGroup → DataGroup}
    (hsf : ∀ d, (sf d).timestamp = d.timestamp)
    (h : ∀ p ∈ g, p.2.timestamp = p.1) :
    ∀ p ∈ mapUpdate g t sf, p.2.timestamp = p.1 := by
  induction g with
  | nil => intro p hp; cases hp
  | cons q rest ih =>
    intro p hp
    by_cases hq : q.1 = t
    · rw [mapUpdate, if_pos (by simp [hq])] at hp
      rcases List.mem_cons.mp hp with rfl | hp
      · rw [hsf]
        exact h q (List.mem_cons_self q rest)
      · exact ih (fun r hr => h r (List.mem_cons_of_mem q hr)) p hp
    · rw [mapUpdate, if_neg (by simp [hq])] at hp
      rcases List.mem_cons.mp hp with rfl | hp
      · exact h p (List.mem_cons_self p rest)
      · exact ih (fun r hr => h r (List.mem_cons_of_mem q hr)) p hp

theorem groupStep_time_inv {g : GroupMap} (m : Measurement)
    (h : ∀ p ∈ g, p.2.timestamp = p.1) :
    ∀ p ∈ groupStep g m, p.2.timestamp = p.1 := by
  by_cases hig : ignoreMeasurementType m.measureType = true
  · rw [groupStep, if_pos hig]; exact h
  · obtain ⟨f, hf⟩ := enum_isSome_of_keep (by simpa using hig)
    rw [groupStep, if_neg hig]
    simp only [hf]
    have hg1 : ∀ p ∈ (if mapHas g m.date = true then g
        else g ++ [(m.date, { timestamp := m.date, userId := m.userId })]),
        p.2.timestamp = p.1 := by
      by_cases hh : mapHas g m.date = true
      · rw [if_pos hh]; exact h
      · rw [if_neg hh]
        intro p hp
        rcases List.mem_append.mp hp with hp | hp
        · exact h p hp
        · rcases List.mem_singleton.mp hp with rfl
          rfl
    exact mapUpdate_time_inv (fun d => setField_timestamp d f m.value) hg1

theorem group_time_inv (ms : List Measurement) :
    ∀ p ∈ groupMeasurementsByTimestamp ms, p.2.timestamp = p.1 := by
  rw [groupMeasurementsByTimestamp]
  have hgen : ∀ (g : GroupMap), (∀ p ∈ g, p.2.timestamp = p.1) →
      ∀ p ∈ ms.foldl groupStep g, p.2.timestamp = p.1 := by
    induction ms with
    | nil => intro g h; exact h
    | cons m rest ih =>
      intro g h
      rw [List.foldl_cons]
      exact ih _ (groupStep_time_inv m h)
  exact hgen [] (fun p hp => by cases hp)

/-- C10: the DataGroup created for a timestamp is unique (grouping keys are
distinct), and its userId is the userId of the first retained measurement
bearing that timestamp — later measurements of the same timestamp never
change it, so measurements of different users sharing a timestamp are
merged into the first user's single group. -/
theorem group_userId_from_first (ms : List Measurement) :
    ((groupMeasurementsByTimestamp ms).map (fun p => p.1)).Nodup ∧
    ∀ t g, mapGet (groupMeasurementsByTimestamp ms) t = some g →
      (firstRetainedAt ms t).map (fun m => m.userId) = some g.userId := by
  refine ⟨group_keys_nodup ms, fun t g hg => ?_⟩
  have hchar := group_userId_char ms t
  rw [hg, Option.map_some'] at hchar
  exact hchar.symm

/-- Witness for C10: two users share timestamp 1; the single group for
timestamp 1 is labelled with the first user's id. -/
theorem group_userId_from_first_witness :
    (firstRetainedAt
        [{ date := 1, value := .arr [1], userId := 1, measureType := .HeartRate },
         { date := 1, value := .arr [2], userId := 2, measureType := .Respiration }]
        1).map (fun m => m.userId) =
      some (DataGroup.userId
        { timestamp := 1, userId := 1, heartRate := some (.arr [1]),
          respiration := some (.arr [2]) }) :=
  (group_userId_from_first
    [{ date := 1, value := .arr [1], userId := 1, measureType := .HeartRate },
     { date := 1, value := .arr [2], userId := 2, measureType := .Respiration }]).2
    1 _ (by decide)

/-! ## Membership characterizations for claim C1 -/

theorem mem_iff_mapGet {g : GroupMap}
    (hnd : (g.map (fun p => p.1)).Nodup) {p : Int × DataGroup} :
    p ∈ g ↔ mapGet g p.1 = some p.2 := by
  induction g with
  | nil => simp [mapGet]
  | cons q rest ih =>
    rw [List.map_cons, List.nodup_cons] at hnd
    constructor
    · intro hp
      rcases List.mem_cons.mp hp with rfl | hp
      · rw [mapGet, if_pos (by simp)]
      · by_cases hq : q.1 = p.1
        · exact absurd (hq ▸ List.mem_map.mpr ⟨p, hp, rfl⟩) hnd.1
        · rw [mapGet, if_neg (by simp [hq])]
          exact (ih hnd.2).mp hp
    · intro hp
      by_cases hq : q.1 = p.1
      · rw [mapGet, if_pos (by simp [hq])] at hp
        injection hp with hp2
        obtain ⟨p1, p2⟩ := p
        obtain ⟨q1, q2⟩ := q
        simp only at hq hp2
        rw [hq, hp2]
        exact List.mem_cons_self _ _
      · rw [mapGet, if_neg (by simp [hq])] at hp
        exact List.mem_cons_of_mem q ((ih hnd.2).mpr hp)

theorem mem_flattenGroupFields {d : DataGroup} {m : Measurement} :
    m ∈ flattenGroupFields d ↔
      ∃ f v, d.getField f = some v ∧
        m = { date := d.timestamp, value := v, userId := d.userId,
              measureType := f.toMeasurementType } := by
  rw [flattenGroupFields, List.mem_filterMap]
  constructor
  · rintro ⟨f, _, hf⟩
    rcases he : d.getField f with _ | v
    · rw [he] at hf; cases hf
    · rw [he] at hf
      injection hf with hf
      exact ⟨f, v, he, hf.symm⟩
  · rintro ⟨f, v, hv, rfl⟩
    refine ⟨f, ?_, ?_⟩
    · cases f <;> decide
    · rw [hv]; rfl

theorem flattenGroupFields_date {d : DataGroup} {m : Measurement}
    (h : m ∈ flattenGroupFields d) : m.date = d.timestamp := by
  obtain ⟨f, v, _, rfl⟩ := mem_flattenGroupFields.mp h
  rfl

theorem flattenGroupFields_nodup (d : DataGroup) :
    (flattenGroupFields d).Nodup := by
  rw [flattenGroupFields]
  refine List.Nodup.filterMap ?_ (by decide)
  intro f f' m hm hm'
  rw [Option.mem_def] at hm hm'
  have h1 : m.measureType = f.toMeasurementType := by
    rcases he : d.getField f with _ | v
    · rw [he] at hm; cases hm
    · rw [he] at hm
      injection hm with hm
      rw [← hm]
  have h2 : m.measureType = f'.toMeasurementType := by
    rcases he : d.getField f' with _ | v
    · rw [he] at hm'; cases hm'
    · rw [he] at hm'
      injection hm' with hm'
      rw [← hm']
  exact toMeasurementType_injective (h1 ▸ h2)

theorem flattenGroups_nodup (ms : List Measurement) :
    (flattenGroups (groupMeasurementsByTimestamp ms)).Nodup := by
  rw [flattenGroups, List.nodup_flatMap]
  refine ⟨fun p _ => flattenGroupFields_nodup p.2, ?_⟩
  have htime := group_time_inv ms
  have hpw : (groupMeasurementsByTimestamp ms).Pairwise
      (fun p q => p.1 ≠ q.1) :=
    List.pairwise_map.mp (group_keys_nodup ms)
  refine hpw.imp_of_mem ?_
  intro p q hp hq hne m hm1 hm2
  apply hne
  have h1 := flattenGroupFields_date hm1
  have h2 := flattenGroupFields_date hm2
  rw [← htime p hp, ← htime q hq, ← h1, ← h2]

theorem dedupKeysRight_subset {l : List Measurement} {m : Measurement}
    (h : m ∈ dedupKeysRight l) : m ∈ l := by
  induction l with
  | nil => cases h
  | cons m0 rest ih =>
    rw [dedupKeysRight] at h
    by_cases hA : (rest.any fun m2 =>
        m2.date == m0.date && m2.measureType == m0.measureType) = true
    · rw [if_pos hA] at h
      exact List.mem_cons_of_mem m0 (ih h)
    · rw [if_neg hA] at h
      rcases List.mem_cons.mp h with rfl | h
      · exact List.mem_cons_self _ _
      · exact List.mem_cons_of_mem m0 (ih h)

theorem dedupKeysRight_pairwise (l : List Measurement) :
    (dedupKeysRight l).Pairwise
      (fun a b => ¬(a.date = b.date ∧ a.measureType = b.measureType)) := by
  induction l with
  | nil => exact List.Pairwise.nil
  | cons m0 rest ih =>
    rw [dedupKeysRight]
    by_cases hA : (rest.any fun m2 =>
        m2.date == m0.date && m2.measureType == m0.measureType) = true
    · rw [if_pos hA]; exact ih
    · rw [if_neg hA]
      refine List.pairwise_cons.mpr ⟨?_, ih⟩
      intro b hb hcon
      obtain ⟨hd, hmt⟩ := hcon
      apply hA
      rw [List.any_eq_true]
      refine ⟨b, dedupKeysRight_subset hb, ?_⟩
      rw [← hd, ← hmt]
      simp

theorem mem_dedupKeysRight {l : List Measurement} {m : Measurement} :
    m ∈ dedupKeysRight l ↔
      (l.filter fun m2 =>
        m2.date == m.date && m2.measureType == m.measureType).getLast? =
        some m := by
  induction l with
  | nil => simp [dedupKeysRight]
  | cons m0 rest ih =>
    rw [dedupKeysRight]
    simp only [List.filter_cons]
    by_cases hA : (rest.any fun m2 =>
        m2.date == m0.date && m2.measureType == m0.measureType) = true
    · rw [if_pos hA]
      by_cases hp : (m0.date == m.date && m0.measureType == m.measureType) = true
      · rw [if_pos hp, getLast?_cons_or]
        have hkey : m0.date = m.date ∧ m0.measureType = m.measureType := by
          simpa using hp
        obtain ⟨m2, hm2, hm2p⟩ := List.any_eq_true.mp hA
        simp only [Bool.and_eq_true, beq_iff_eq] at hm2p
        have hm2p2 : (fun m2 => m2.date == m.date &&
            m2.measureType == m.measureType) m2 = true := by
          simp [hm2p.1.trans hkey.1, hm2p.2.trans hkey.2]
        have hne : (rest.filter fun m2 =>
            m2.date == m.date && m2.measureType == m.measureType) ≠ [] := by
          intro hnil
          have hmm : m2 ∈ rest.filter (fun m2 =>
              m2.date == m.date && m2.measureType == m.measureType) :=
            List.mem_filter.mpr ⟨hm2, hm2p2⟩
          rw [hnil] at hmm
          cases hmm
        rw [Option.or_of_isSome (List.getLast?_isSome.mpr hne)]
        exact ih
      · rw [if_neg hp]; exact ih
    · rw [if_neg hA]
      by_cases hp : (m0.date == m.date && m0.measureType == m.measureType) = true
      · rw [if_pos hp, getLast?_cons_or]
        have hkey : m0.date = m.date ∧ m0.measureType = m.measureType := by
          simpa using hp
        have hfil : (rest.filter fun m2 =>
            m2.date == m.date && m2.measureType == m.measureType) = [] := by
          rw [List.filter_eq_nil_iff]
          intro m2 hm2 hm2p
          apply hA
          rw [List.any_eq_true]
          refine ⟨m2, hm2, ?_⟩
          simp only [Bool.and_eq_true, beq_iff_eq] at hm2p
          simp [hm2p.1.trans hkey.1.symm, hm2p.2.trans hkey.2.symm]
        rw [hfil]
        constructor
        · intro hmem
          rcases List.mem_cons.mp hmem with rfl | hmem
          · rfl
          · have := ih.mp hmem
            rw [hfil] at this
            cases this
        · intro he
          have hm0m : m0 = m := by
            have : (none : Option Measurement).or (some m0) = some m := he
            rw [Option.none_or] at this
            injection this
          rw [← hm0m]
          exact List.mem_cons_self _ _
      · rw [if_neg hp, List.mem_cons, ih]
        constructor
        · rintro (rfl | h)
          · exact absurd (by simp) hp
          · exact h
        · exact Or.inr

theorem filter_keep_type (ms : List Measurement) (t : Int) (f : GroupField) :
    ((ms.filter keepMeasurement).filter fun m2 =>
        m2.date == t && m2.measureType == f.toMeasurementType) =
      ms.filter fun m2 =>
        m2.date == t && m2.measureType == f.toMeasurementType := by
  rw [List.filter_filter]
  apply List.filter_congr
  intro m2 _
  by_cases hp : (m2.date == t && m2.measureType == f.toMeasurementType) = true
  · rw [hp, Bool.true_and]
    have hmt : m2.measureType = f.toMeasurementType := by
      simp only [Bool.and_eq_true, beq_iff_eq] at hp
      exact hp.2
    simp [keepMeasurement, hmt, toMeasurementType_not_ignored]
  · rw [eq_false_of_ne_true hp, Bool.false_and]

/-- Membership of the flattened grouping output, characterized by the
winning (last) write of a (timestamp, field) slot and the userId of the
first retained measurement of the timestamp. -/
theorem mem_flattenGroups_char {ms : List Measurement} {m' : Measurement} :
    m' ∈ flattenGroups (groupMeasurementsByTimestamp ms) ↔
      ∃ f mw, lastMeas ms m'.date f = some mw ∧
        m'.value = mw.value ∧ m'.measureType = f.toMeasurementType ∧
        (firstRetainedAt ms m'.date).map (fun m => m.userId) =
          some m'.userId := by
  constructor
  · intro hm
    rw [flattenGroups, List.mem_flatMap] at hm
    obtain ⟨p, hp, hmf⟩ := hm
    obtain ⟨f, v, hv, rfl⟩ := mem_flattenGroupFields.mp hmf
    have htime := group_time_inv ms p hp
    have hget : mapGet (groupMeasurementsByTimestamp ms) p.1 = some p.2 :=
      (mem_iff_mapGet (group_keys_nodup ms)).mp hp
    have hfield := group_field_char ms p.1 f
    rw [hget, Option.some_bind, hv] at hfield
    rcases hlm : lastMeas ms p.1 f with _ | mw
    · rw [hlm] at hfield; cases hfield
    · rw [hlm, Option.map_some'] at hfield
      injection hfield with hval
      have huser := group_userId_char ms p.1
      rw [hget, Option.map_some'] at huser
      refine ⟨f, mw, ?_, ?_, rfl, ?_⟩
      · show lastMeas ms p.2.timestamp f = some mw
        rw [htime]; exact hlm
      · exact hval
      · show (firstRetainedAt ms p.2.timestamp).map (fun m => m.userId) =
          some p.2.userId
        rw [htime]; exact huser.symm
  · rintro ⟨f, mw, hlm, hval, hmt, huser⟩
    have hmw_mem := List.mem_of_getLast?_eq_some hlm
    rw [List.mem_filter] at hmw_mem
    obtain ⟨hmw_ms, hmw_pred⟩ := hmw_mem
    simp only [Bool.and_eq_true, beq_iff_eq] at hmw_pred
    have hhas : mapHas (groupMeasurementsByTimestamp ms) m'.date = true := by
      rw [group_has_char, List.any_eq_true]
      refine ⟨mw, hmw_ms, ?_⟩
      simp [keepMeasurement, hmw_pred.1, hmw_pred.2,
        toMeasurementType_not_ignored]
    obtain ⟨d, hd⟩ := mapGet_isSome_of_has hhas
    have hfield := group_field_char ms m'.date f
    rw [hd, Option.some_bind, hlm, Option.map_some'] at hfield
    have huser2 := group_userId_char ms m'.date
    rw [hd, Option.map_some', huser] at huser2
    have hdu : d.userId = m'.userId := Option.some_inj.mp huser2
    have hmem : (m'.date, d) ∈ groupMeasurementsByTimestamp ms :=
      (mem_iff_mapGet (group_keys_nodup ms)).mpr hd
    have hts : d.timestamp = m'.date := group_time_inv ms _ hmem
    rw [flattenGroups, List.mem_flatMap]
    refine ⟨(m'.date, d), hmem, ?_⟩
    rw [mem_flattenGroupFields]
    refine ⟨f, mw.value, hfield, ?_⟩
    obtain ⟨md, mv, mu, mmt⟩ := m'
    simp only [Measurement.mk.injEq]
    exact ⟨hts.symm, hval, hdu.symm, hmt⟩

/-- Membership of the relabelled last-write-wins list, characterized the
same way. -/
theorem mem_relabel_dedup_char {ms : List Measurement} {m' : Measurement} :
    m' ∈ (dedupKeysRight (ms.filter keepMeasurement)).map (relabelUserId ms) ↔
      ∃ f mw, lastMeas ms m'.date f = some mw ∧
        m'.value = mw.value ∧ m'.measureType = f.toMeasurementType ∧
        (firstRetainedAt ms m'.date).map (fun m => m.userId) =
          some m'.userId := by
  rw [List.mem_map]
  constructor
  · rintro ⟨m0, hm0, rfl⟩
    have hchar := mem_dedupKeysRight.mp hm0
    have hm0f := List.mem_of_getLast?_eq_some hchar
    rw [List.mem_filter] at hm0f
    have hm0k := List.mem_filter.mp hm0f.1
    have hkeep0 : ignoreMeasurementType m0.measureType = false := by
      have := hm0k.2
      rw [keepMeasurement] at this
      simpa using this
    obtain ⟨f, hf⟩ := enum_isSome_of_keep hkeep0
    have hmt0 : m0.measureType = f.toMeasurementType := enum_eq_some_iff.mp hf
    have hlast : lastMeas ms m0.date f = some m0 := by
      rw [hmt0] at hchar
      rw [lastMeas, ← filter_keep_type]
      exact hchar
    have hfs : (firstRetainedAt ms m0.date).isSome = true := by
      rw [firstRetainedAt, List.find?_isSome]
      exact ⟨m0, hm0k.1, by simp [hm0k.2]⟩
    obtain ⟨mf, hmf⟩ := Option.isSome_iff_exists.mp hfs
    refine ⟨f, m0, hlast, rfl, hmt0, ?_⟩
    show (firstRetainedAt ms m0.date).map (fun m => m.userId) =
      some (relabelUserId ms m0).userId
    rw [hmf, Option.map_some', relabelUserId]
    show some mf.userId =
      some (((firstRetainedAt ms m0.date).map (fun m0 => m0.userId)).getD
        m0.userId)
    rw [hmf, Option.map_some', Option.getD_some]
  · rintro ⟨f, mw, hlm, hval, hmt, huser⟩
    have hmw_mem := List.mem_of_getLast?_eq_some hlm
    rw [List.mem_filter] at hmw_mem
    obtain ⟨hmw_ms, hmw_pred⟩ := hmw_mem
    simp only [Bool.and_eq_true, beq_iff_eq] at hmw_pred
    refine ⟨mw, ?_, ?_⟩
    · rw [mem_dedupKeysRight, hmw_pred.1, hmw_pred.2, filter_keep_type]
      rw [lastMeas] at hlm
      exact hlm
    · rw [relabelUserId]
      obtain ⟨md, mv, mu, mmt⟩ := m'
      simp only [Measurement.mk.injEq]
      simp only at hval hmt huser
      refine ⟨hmw_pred.1, hval.symm, ?_, hmt ▸ hmw_pred.2⟩
      rw [hmw_pred.1, huser, Option.getD_some]

/-- C1 counterexample: two users share timestamp 1 with different fields;
flattening the single merged group relabels the second user's measurement
with the first user's id, so the retained measurements are not
reconstructed exactly (neither as a multiset nor as a set). -/
theorem group_flatten_not_exact :
    ¬ (flattenGroups (groupMeasurementsByTimestamp
        [Measurement.mk 1 (JSValue.arr [1]) 1 MeasurementType.HeartRate,
         Measurement.mk 1 (JSValue.arr [2]) 2 MeasurementType.Respiration])).Perm
      (dedupKeysRight
        (List.filter keepMeasurement
          [Measurement.mk 1 (JSValue.arr [1]) 1 MeasurementType.HeartRate,
           Measurement.mk 1 (JSValue.arr [2]) 2 MeasurementType.Respiration])) ∧
    Measurement.mk 1 (JSValue.arr [2]) 2 MeasurementType.Respiration ∈
      dedupKeysRight
        (List.filter keepMeasurement
          [Measurement.mk 1 (JSValue.arr [1]) 1 MeasurementType.HeartRate,
           Measurement.mk 1 (JSValue.arr [2]) 2 MeasurementType.Respiration]) ∧
    Measurement.mk 1 (JSValue.arr [2]) 2 MeasurementType.Respiration ∉
      flattenGroups (groupMeasurementsByTimestamp
        [Measurement.mk 1 (JSValue.arr [1]) 1 MeasurementType.HeartRate,
         Measurement.mk 1 (JSValue.arr [2]) 2 MeasurementType.Respiration]) := by
  have h2 : Measurement.mk 1 (JSValue.arr [2]) 2 MeasurementType.Respiration ∈
      dedupKeysRight
        (List.filter keepMeasurement
          [Measurement.mk 1 (JSValue.arr [1]) 1 MeasurementType.HeartRate,
           Measurement.mk 1 (JSValue.arr [2]) 2 MeasurementType.Respiration]) := by
    decide
  have h3 : Measurement.mk 1 (JSValue.arr [2]) 2 MeasurementType.Respiration ∉
      flattenGroups (groupMeasurementsByTimestamp
        [Measurement.mk 1 (JSValue.arr [1]) 1 MeasurementType.HeartRate,
         Measurement.mk 1 (JSValue.arr [2]) 2 MeasurementType.Respiration]) := by
    decide
  exact ⟨fun hperm => h3 (hperm.mem_iff.mpr h2), h2, h3⟩

/-- C1 (amended): flattening the fields of the grouping map reconstructs
the retained measurements with last-write-wins per (timestamp, field),
except that each reconstructed measurement carries the userId of the first
retained measurement of its timestamp (its group's label) instead of its
own. -/
theorem group_flatten_reconstructs (ms : List Measurement) :
    (flattenGroups (groupMeasurementsByTimestamp ms)).Perm
      ((dedupKeysRight (ms.filter keepMeasurement)).map (relabelUserId ms)) := by
  have hrhs : ((dedupKeysRight (ms.filter keepMeasurement)).map
      (relabelUserId ms)).Nodup := by
    rw [List.Nodup, List.pairwise_map]
    refine (dedupKeysRight_pairwise (ms.filter keepMeasurement)).imp ?_
    intro a b hne heq
    apply hne
    constructor
    · show a.date = b.date
      have : (relabelUserId ms a).date = (relabelUserId ms b).date := by
        rw [heq]
      exact this
    · show a.measureType = b.measureType
      have : (relabelUserId ms a).measureType =
          (relabelUserId ms b).measureType := by
        rw [heq]
      exact this
  rw [List.perm_ext_iff_of_nodup (flattenGroups_nodup ms) hrhs]
  intro m'
  rw [mem_flattenGroups_char, mem_relabel_dedup_char]

/-! ## The playback driver: ordering, per-group messages, pacing, abort -/

/-- C3: the timestamp list the playback driver iterates (the sorted key
list of the grouping map) is strictly ascending for every input, whatever
the order of the measurements inside the users' data. -/
theorem driver_emits_ascending_timestamps (uds : List UserData) :
    (sortedTimestamps
      (groupMeasurementsByTimestamp (flatMeasurementData uds))).Pairwise
      (· < ·) :=
  sortTimestamps_sorted_lt
    (group_keys_nodup (flatMeasurementData uds))

theorem emitField_eq_bind (now : Int) (d : DataGroup) (f : GroupField) :
    emitField now d f =
      ((d.getField f).bind fun v =>
        if v.truthy then
          some (PlayEvent.sent { date := now, value := v, userId := d.userId,
                                 measureType := f.toMeasurementType })
        else none).toList := by
  rcases he : d.getField f with _ | v
  · simp [emitField, he]
  · by_cases htr : v.truthy = true
    · simp [emitField, he, htr]
    · simp [emitField, he, htr]

theorem flatMap_emit_eq_filterMap (now : Int) (d : DataGroup)
    (fs : List GroupField) :
    fs.flatMap (emitField now d) =
      fs.filterMap (fun f =>
        (d.getField f).bind fun v =>
          if v.truthy then
            some (PlayEvent.sent
              { date := now, value := v, userId := d.userId,
                measureType := f.toMeasurementType })
          else none) := by
  induction fs with
  | nil => rfl
  | cons f rest ih =>
    rw [List.flatMap_cons, List.filterMap_cons, emitField_eq_bind]
    rcases he : (d.getField f).bind fun v =>
        if v.truthy then
          some (PlayEvent.sent
            { date := now, value := v, userId := d.userId,
              measureType := f.toMeasurementType })
        else none with _ | e
    · rw [Option.toList_none, List.nil_append, ih]
    · rw [Option.toList_some, List.singleton_append, ih]

theorem groupMessages_eq_flatMap (now : Int) (d : DataGroup) :
    groupMessages now d = groupFieldOrder.flatMap (emitField now d) := by
  simp [groupMessages, groupFieldOrder, List.flatMap_cons,
    List.append_assoc]

/-- C4 counterexample: a populated recognized field holding the numeric
value 0 is JS-falsy, so the driver sends no message at all for a group
whose only populated field it is — not one message per populated field. -/
theorem driver_skips_falsy_populated_field :
    populatedFields
        (DataGroup.mk 1 7 (some (JSValue.num 0)) none none none none none
          none) = [GroupField.heartRate] ∧
    groupMessages 5
        (DataGroup.mk 1 7 (some (JSValue.num 0)) none none none none none
          none) = [] := by
  constructor
  · decide
  · decide

/-- C4 (amended): for every group the driver emits exactly one message per
populated recognized field whose stored value is JS-truthy (a numeric 0
value yields no message; array values always do), in the fixed field order
heartRate, breathFrequency, respiration, accelerationX/Y/Z, position; each
message carries the group's userId, the field's value, the field's output
type code, and the wall-clock date `now` — never the group's own sample
timestamp. -/
theorem driver_messages_per_group (now : Int) (d : DataGroup) :
    groupMessages now d =
      groupFieldOrder.filterMap (fun f =>
        (d.getField f).bind fun v =>
          if v.truthy then
            some (PlayEvent.sent
              { date := now, value := v, userId := d.userId,
                measureType := f.toMeasurementType })
          else none) ∧
    ∀ e ∈ groupMessages now d, ∃ mv, e = PlayEvent.sent mv ∧
      mv.date = now ∧ mv.userId = d.userId := by
  constructor
  · rw [groupMessages_eq_flatMap, flatMap_emit_eq_filterMap]
  · intro e he
    rw [groupMessages_eq_flatMap, List.mem_flatMap] at he
    obtain ⟨f, _, hf⟩ := he
    rw [emitField] at hf
    rcases hg : d.getField f with _ | v
    · rw [hg] at hf; cases hf
    · rw [hg] at hf
      by_cases htr : v.truthy = true
      · simp only [htr, if_true] at hf
        rcases List.mem_singleton.mp hf with rfl
        exact ⟨_, rfl, rfl, rfl⟩
      · have hft : v.truthy = false := eq_false_of_ne_true htr
        simp [hft] at hf

theorem driverLoop_noAbort_paced (now : Int) (data : GroupMap)
    (full : List Int) :
    ∀ (l : List Int) (i : Nat), l = full.drop i →
      (∀ t ∈ l, mapHas data t = true) →
      driverLoop data (computeTimeDeltas full) (fun _ => false) now i l =
        pacedTrace now data l := by
  intro l
  induction l with
  | nil => intro i _ _; rfl
  | cons t rest ih =>
    intro i hdrop hmem
    have hfi : full[i]? = some t := by
      have h0 : (full.drop i)[0]? = some t := by rw [← hdrop]; simp
      rw [List.getElem?_drop] at h0
      simpa using h0
    obtain ⟨d, hd⟩ := mapGet_isSome_of_has (hmem t (List.mem_cons_self t rest))
    rw [driverLoop]
    rw [if_neg (by simp), hd]
    cases rest with
    | nil =>
      have hlen : full.length = i + 1 := by
        have h1 : (full.drop i).length = 1 := by rw [← hdrop]; rfl
        rw [List.length_drop] at h1
        have h2 : i < full.length := by
          by_contra hge
          rw [List.getElem?_eq_none (by omega)] at hfi
          cases hfi
        omega
      have hw : waitDelta i (computeTimeDeltas full) = [] := by
        rw [waitDelta]
        have : (computeTimeDeltas full)[i]? = none := by
          apply List.getElem?_eq_none
          rw [computeTimeDeltas]
          have := List.length_zipWith (fun a b => a - b) (full.drop 1) full
          rw [this, List.length_drop]
          omega
        rw [this]
      rw [hw, driverLoop, pacedTrace, groupEventsAt, hd]
      simp
    | cons t' rest2 =>
      have hfi' : full[i + 1]? = some t' := by
        have h1 : (full.drop i)[1]? = some t' := by rw [← hdrop]; simp
        rw [List.getElem?_drop] at h1
        simpa using h1
      have hw : waitDelta i (computeTimeDeltas full) =
          [PlayEvent.waited ((t' - t) * 1000)] := by
        rw [waitDelta, computeTimeDeltas]
        have hz : (List.zipWith (fun a b => a - b) (full.drop 1) full)[i]? =
            some (t' - t) := by
          rw [List.getElem?_zipWith, List.getElem?_drop]
          have : 1 + i = i + 1 := by omega
          rw [this, hfi', hfi]
        rw [hz]
      have hdrop' : t' :: rest2 = full.drop (i + 1) := by
        rw [← List.tail_drop, ← hdrop]
        rfl
      rw [hw, ih (i + 1) hdrop'
        (fun s hs => hmem s (List.mem_cons_of_mem t hs)), pacedTrace,
        groupEventsAt, hd]
      simp

/-- C5: the inter-group deltas are computed up front as the pairwise
differences of the sorted timestamps ([100, 103, 107] gives [3, 4]), and an
uncancelled run's trace is exactly: each group's messages, then a wait of
the delta leading to the next group converted from seconds to setTimeout
milliseconds, with no wait after the final group. -/
theorem driver_paces_by_deltas (now : Int) (data : GroupMap) :
    computeTimeDeltas [100, 103, 107] = [3, 4] ∧
    prepareAndSendMessages now data (fun _ => false) =
      pacedTrace now data (sortedTimestamps data) := by
  refine ⟨by decide, ?_⟩
  rw [prepareAndSendMessages]
  apply driverLoop_noAbort_paced now data (sortedTimestamps data)
    (sortedTimestamps data) 0 rfl
  intro t ht
  rw [mapHas_iff]
  exact (sortTimestamps_perm (data.map (fun p => p.1))).mem_iff.mp ht

theorem driverLoop_eq_flatten_blocks (now : Int) (data : GroupMap)
    (deltas : List Int) :
    ∀ (l : List Int) (i : Nat),
      driverLoop data deltas (fun _ => false) now i l =
        (driverBlocks now data deltas i l).flatten := by
  intro l
  induction l with
  | nil => intro i; rfl
  | cons t rest ih =>
    intro i
    rw [driverLoop, driverBlocks]
    rcases hd : mapGet data t with _ | d
    · simp [hd, ih (i + 1)]
    · simp [hd, ih (i + 1)]

theorem driverLoop_abort_eq_take (now : Int) (data : GroupMap)
    (deltas : List Int) (k : Nat) :
    ∀ (l : List Int) (i : Nat),
      driverLoop data deltas (fun j => decide (k ≤ j)) now i l =
        ((driverBlocks now data deltas i l).take (k - i)).flatten := by
  intro l
  induction l with
  | nil => intro i; simp [driverLoop, driverBlocks]
  | cons t rest ih =>
    intro i
    by_cases hk : k ≤ i
    · rw [driverLoop, if_pos (by simp [hk])]
      have h0 : k - i = 0 := by omega
      rw [h0, driverBlocks]
      simp
    · rw [driverLoop, if_neg (by simp [hk]), driverBlocks]
      have hki : k - i = (k - (i + 1)) + 1 := by omega
      rw [hki, List.take_succ_cons, List.flatten_cons]
      rcases hd : mapGet data t with _ | d
      · simp [hd, ih (i + 1)]
      · simp [hd, ih (i + 1)]

/-- C6 counterexample: two groups at timestamps 0 and 5; the cancellation
signal is observed set from the second loop check on (i.e. it was set after
group 0's messages were sent).  The driver still performs the 5000 ms
inter-group wait before stopping — it does not stop immediately without
waiting, though it does send no further group's messages. -/
theorem driver_abort_still_waits :
    prepareAndSendMessages 99
      (groupMeasurementsByTimestamp
        [Measurement.mk 0 (JSValue.arr [1]) 1 MeasurementType.HeartRate,
         Measurement.mk 5 (JSValue.arr [2]) 1 MeasurementType.HeartRate])
      (fun i => decide (1 ≤ i)) =
      [PlayEvent.sent (Measurement.mk 99 (JSValue.arr [1]) 1
        MeasurementType.HeartRate),
       PlayEvent.waited 5000] := by
  decide

/-- C6 (amended): when the cancellation signal becomes observable at the
k-th loop check (it was set while iteration k-1 was running, e.g. right
after that group's messages were sent), the driver's trace is exactly the
first k full iterations of the uncancelled run — each comprising the
group's messages AND the following inter-group wait — and nothing else: no
later group's messages are sent, and all messages of the first k groups
were already sent.  In particular the wait scheduled after the last
completed group is still performed; cancellation does not skip it. -/
theorem driver_abort_truncates (now : Int) (data : GroupMap) (k : Nat) :
    prepareAndSendMessages now data (fun i => decide (k ≤ i)) =
      ((driverBlocks now data (computeTimeDeltas (sortedTimestamps data)) 0
        (sortedTimestamps data)).take k).flatten ∧
    prepareAndSendMessages now data (fun _ => false) =
      (driverBlocks now data (computeTimeDeltas (sortedTimestamps data)) 0
        (sortedTimestamps data)).flatten := by
  constructor
  · rw [prepareAndSendMessages, driverLoop_abort_eq_take, Nat.sub_zero]
  · rw [prepareAndSendMessages, driverLoop_eq_flatten_blocks]

/-! ## Device resolver, channel negotiator, serial transport -/

theorem findSome_lineMatches (frag : String) (lines : List String) :
    lines.findSome? (lineMatches frag) =
      ((lines.filterMap fun line => matchDeviceLine line.data).find?
        (deviceNameMatches frag)).map (fun dev => String.mk dev.1) := by
  induction lines with
  | nil => rfl
  | cons line rest ih =>
    rw [List.findSome?_cons, List.filterMap_cons]
    rcases hm : matchDeviceLine line.data with _ | dev
    · rw [lineMatches, hm]
      exact ih
    · obtain ⟨addr, name⟩ := dev
      by_cases hc : containsSub (toLowerList frag.data) (toLowerList name) = true

      · rw [lineMatches, hm]
        simp only [hc, if_true]
        rw [List.find?_cons_of_pos _
          (show deviceNameMatches frag (addr, name) = true from hc),
          Option.map_some']
      · rw [lineMatches, hm]
        simp only [hc, if_false]
        rw [List.find?_cons_of_neg _
          (show ¬deviceNameMatches frag (addr, name) = true from hc)]
        exact ih

/-- C7: the device resolver returns a strict colon-hex address unchanged,
for every possible paired-device listing (so the listing is never
consulted); otherwise it returns the address of the first parsed
"Device <address> <name>" line whose name contains the input fragment
case-insensitively, and fails with DeviceNotFound when no line matches —
in particular when the listing is empty. -/
theorem resolveAddress_spec (input stdout : String) :
    (isAddressPattern input = true →
      resolveAddress input stdout = .ok input) ∧
    (isAddressPattern input = false →
      resolveAddress input stdout =
        match (pairedDeviceList stdout).find? (deviceNameMatches input) with
        | some dev => .ok (String.mk dev.1)
        | none => .error (.deviceNotFound input)) := by
  constructor
  · intro h
    rw [resolveAddress, if_pos h]
  · intro h
    rw [resolveAddress, if_neg (by simp [h]), findSome_lineMatches,
      pairedDeviceList]
    rcases hf : ((stdout.splitOn "\n").filterMap
        (fun line => matchDeviceLine line.data)).find?
        (deviceNameMatches input) with _ | dev
    · rw [hf]
      rfl
    · rw [hf]
      rfl

/-- Witness for C7: an input already matching the address pattern is
returned unchanged whatever the listing contains. -/
theorem resolveAddress_spec_witness :
    resolveAddress "AA:BB:CC:DD:EE:FF" "" = .ok "AA:BB:CC:DD:EE:FF" :=
  (resolveAddress_spec "AA:BB:CC:DD:EE:FF" "").1 (by decide)

theorem connectRFCOMMGo_fail (outputs : Nat → List String) :
    ∀ cs : List Nat, (∀ ch ∈ cs, attemptOk outputs ch = false) →
      connectRFCOMMGo outputs cs =
        (cs.flatMap
          (fun ch => [NegAction.release0, NegAction.spawnConnect ch]),
         .error .channelNegotiationFailed) := by
  intro cs
  induction cs with
  | nil => intro _; rfl
  | cons ch rest ih =>
    intro h
    have hch : attemptOk outputs ch = false :=
      h ch (List.mem_cons_self ch rest)
    rw [connectRFCOMMGo]
    simp only [hch, Bool.false_eq_true, if_false,
      ih (fun c hc => h c (List.mem_cons_of_mem ch hc)), List.flatMap_cons]

theorem connectRFCOMMGo_succeed (outputs : Nat → List String) :
    ∀ (cs : List Nat) (ch : Nat),
      cs.find? (attemptOk outputs) = some ch →
      connectRFCOMMGo outputs cs =
        ((cs.takeWhile (fun c => !attemptOk outputs c)).flatMap
            (fun c => [NegAction.release0, NegAction.spawnConnect c]) ++
          [NegAction.release0, NegAction.spawnConnect ch,
           NegAction.openDev rfcommDevPath],
         .ok { rfcommProc := some ch, rfcommFd := some rfcommDevPath }) := by
  intro cs
  induction cs with
  | nil => intro ch h; cases h
  | cons c rest ih =>
    intro ch h
    by_cases hc : attemptOk outputs c = true
    · rw [List.find?_cons_of_pos rest
        (show attemptOk outputs c = true from hc)] at h
      injection h with h
      subst h
      rw [connectRFCOMMGo]
      simp only [hc, if_true, List.takeWhile_cons]
      simp [hc]
    · rw [List.find?_cons_of_neg rest
        (show ¬attemptOk outputs c = true from hc)] at h
      rw [connectRFCOMMGo]
      have hcf : attemptOk outputs c = false := eq_false_of_ne_true hc
      simp only [hcf, Bool.false_eq_true, if_false, ih ch h,
        List.takeWhile_cons, Bool.not_false, List.flatMap_cons]
      simp

/-- C8: channel negotiation tries the fixed candidate list 12, 19, 26, 3, 2
in order, releasing the local rfcomm0 slot before each connect attempt; an
attempt succeeds iff one of the stdout chunks its subprocess delivered in
time contains the success pattern.  The first success stops the scan, its
subprocess handle and the opened /dev/rfcomm0 path are retained, with the
prior (all failing) candidates each contributing exactly a release and a
spawn; if every candidate fails, the result is ChannelNegotiationFailed and
no device is ever opened. -/
theorem connectRFCOMM_spec (outputs : Nat → List String) :
    ((∀ ch ∈ knownChannels, attemptOk outputs ch = false) →
      (connectRFCOMM outputs).2 = .error .channelNegotiationFailed ∧
      (connectRFCOMM outputs).1 =
        knownChannels.flatMap
          (fun ch => [NegAction.release0, NegAction.spawnConnect ch]) ∧
      ∀ path, NegAction.openDev path ∉ (connectRFCOMM outputs).1) ∧
    (∀ ch, knownChannels.find? (attemptOk outputs) = some ch →
      (connectRFCOMM outputs).2 =
        .ok { rfcommProc := some ch, rfcommFd := some rfcommDevPath } ∧
      (connectRFCOMM outputs).1 =
        (knownChannels.takeWhile (fun c => !attemptOk outputs c)).flatMap
          (fun c => [NegAction.release0, NegAction.spawnConnect c]) ++
        [NegAction.release0, NegAction.spawnConnect ch,
         NegAction.openDev rfcommDevPath]) := by
  constructor
  · intro h
    have heq := connectRFCOMMGo_fail outputs knownChannels h
    rw [connectRFCOMM, heq]
    refine ⟨rfl, rfl, ?_⟩
    intro path hmem
    rw [List.mem_flatMap] at hmem
    obtain ⟨c, _, hc⟩ := hmem
    rcases List.mem_cons.mp hc with he | hc2
    · cases he
    · rcases List.mem_singleton.mp hc2

  · intro ch h
    have heq := connectRFCOMMGo_succeed outputs knownChannels ch h
    rw [connectRFCOMM, heq]
    exact ⟨rfl, rfl⟩

/-- Witness for C8: with every subprocess silent, all five candidates fail
and negotiation reports ChannelNegotiationFailed without opening a
device. -/
theorem connectRFCOMM_spec_witness :
    (connectRFCOMM (fun _ => [])).2 =
      .error .channelNegotiationFailed :=
  ((connectRFCOMM_spec (fun _ => [])).1 (by decide)).1

/-- C9 counterexample: the legacy Bluetooth class's sendMessage, invoked
with nothing connected (hence no handle open anywhere), does not fail with
NotConnected — it logs a warning and resolves successfully having skipped
the message. -/
theorem legacy_send_no_error :
    sendMessageLegacy false "test" = .ok .skippedNotConnected := rfl

/-- C9 (amended): for the RFCOMM transport, send fails with NotConnected
whenever no descriptor is open; with an open descriptor it performs exactly
one write whose payload is the message itself when it already ends in a
newline and the message plus a newline terminator otherwise.  (The legacy
transport class instead resolves silently without writing when not
connected.) -/
theorem sendMessage_spec (rfcommFd : Option Nat) (message : String) :
    (rfcommFd = none → sendMessage rfcommFd message = .error .notConnected) ∧
    (∀ fd, rfcommFd = some fd →
      (strEndsWith message "\n" = true →
        sendMessage rfcommFd message = .ok { fd := fd, data := message }) ∧
      (strEndsWith message "\n" = false →
        sendMessage rfcommFd message =
          .ok { fd := fd, data := message ++ "\n" })) := by
  constructor
  · rintro rfl
    rfl
  · rintro fd rfl
    constructor
    · intro he
      simp [sendMessage, he]
    · intro he
      simp [sendMessage, he]

/-- Witness for C9's amended statement: no handle yields NotConnected; an
open handle writes the newline-terminated message once. -/
theorem sendMessage_spec_witness :
    sendMessage none "x" = .error .notConnected ∧
    sendMessage (some 3) "hi" = .ok { fd := 3, data := "hi\n" } :=
  ⟨(sendMessage_spec none "x").1 rfl,
   ((sendMessage_spec (some 3) "hi").2 3 rfl).2 (by decide)⟩

end IotSim
